import Mathlib

/-!
Verification development for the rdf2go dataset module.

The Go code stores quads in a `map[*Quad]bool`, i.e. a set of quad
*pointers*.  We embed that faithfully: a pointer is an allocation id
paired with the (immutable) pointee value, and a global allocation
counter (`Alloc`) is threaded through every operation that calls
`NewQuad`.  Map insertion/deletion compares keys by pointer, i.e. by
allocation id.

Go string scanning helpers (strings.Split / TrimSpace / HasPrefix /
HasSuffix / Contains / Join) are re-implemented structurally over the
character list of a `String`, so that all definitions evaluate inside
the kernel.

The external collaborators (the gon3 Turtle grammar parser and the
gojsonld expansion engine) are third-party libraries, not code of this
repository; they are abstracted as oracle parameters (`Collaborators`).
-/

/-- Modelled from the spec: the repository's term.go is not in the
provided sources.  Terms per section 3 of the spec: a closed set of
variants Resource, Literal (value, optional language tag, optional
datatype - the datatype term is always a resource, represented here by
its URI), BlankNode. -/
inductive Term where
  | resource (uri : String)
  | literal (value : String) (language : String) (datatype : Option String)
  | blankNode (id : String)
deriving DecidableEq

/-- Modelled from the spec: structural, variant-specific term equality
(section 3): resources by URI, literals by value, language tag and
datatype (absence matches only absence), blank nodes by id. -/
def Term.Equal : Term → Term → Bool
  | Term.resource u1, Term.resource u2 => u1 == u2
  | Term.literal v1 l1 d1, Term.literal v2 l2 d2 => v1 == v2 && l1 == l2 && d1 == d2
  | Term.blankNode b1, Term.blankNode b2 => b1 == b2
  | _, _ => false

/-- Modelled from the spec: canonical textual encoding of a term
(section 3): angle brackets for resources, quoted value with optional
language tag or datatype for literals, underscore-colon for blank
nodes. -/
def Term.String : Term → String
  | Term.resource u => "<" ++ u ++ ">"
  | Term.literal v l dt =>
      "\"" ++ v ++ "\"" ++
        (if l != "" then "@" ++ l
         else (match dt with
               | some du => "^^<" ++ du ++ ">"
               | none => ""))
  | Term.blankNode b => "_:" ++ b

/-- Modelled from the spec: `encodeTerm` of the missing term.go, the
canonical term encoding used by the TriG serializer. -/
def encodeTerm (t : Term) : String := t.String

def NewResource (uri : String) : Term := Term.resource uri

def NewLiteral (value : String) : Term := Term.literal value "" none

/-- Quad of quad.go: subject, predicate, object and optional graph term
(`nil` graph in Go = `none`, the default graph).  The Go code never
stores quads with nil subject/predicate/object through the operations
under study, so those three are total terms here. -/
structure Quad where
  Subject : Term
  Predicate : Term
  Object : Term
  Graph : Option Term
deriving DecidableEq

/-- Quad.String of quad.go, restricted to non-nil S/P/O terms: the
NQuads line body, graph term present only when the quad has one. -/
def Quad.String (q : Quad) : String :=
  match q.Graph with
  | some g => q.Subject.String ++ " " ++ q.Predicate.String ++ " " ++ q.Object.String ++ " " ++ g.String ++ " ."
  | none => q.Subject.String ++ " " ++ q.Predicate.String ++ " " ++ q.Object.String ++ " ."

/-- Quad.Equal of quad.go: same triple (per Term.Equal) and graphs both
absent, or both present and equal. -/
def Quad.Equal (q other : Quad) : Bool :=
  let sameTriple := q.Subject.Equal other.Subject &&
    q.Predicate.Equal other.Predicate &&
    q.Object.Equal other.Object
  match q.Graph, other.Graph with
  | none, none => sameTriple
  | none, some _ => false
  | some _, none => false
  | some g1, some g2 => sameTriple && g1.Equal g2

/-- Global allocation counter: Go heap addresses are modelled as
consecutive allocation ids, globally unique across datasets. -/
structure Alloc where
  next : Nat
deriving DecidableEq

/-- A `*Quad` pointer: its address (allocation id) plus the pointee
value.  The code never mutates a quad after construction, so the value
can be carried with the pointer.  Go pointer equality is id equality. -/
structure QuadPtr where
  id : Nat
  val : Quad
deriving DecidableEq

/-- NewQuad of quad.go: allocates a fresh quad and returns its pointer
together with the advanced allocator. -/
def NewQuad (a : Alloc) (s p o : Term) (g : Option Term) : QuadPtr × Alloc :=
  (⟨a.next, ⟨s, p, o, g⟩⟩, ⟨a.next + 1⟩)

/-- Dataset: the key set of the Go `map[*Quad]bool` (insertion order
fixed as list order; Go map iteration order is unspecified) plus the
base URI.  The httpClient and the cached self-term are irrelevant to
the claims and omitted. -/
structure Dataset where
  quads : List QuadPtr
  uri : String
deriving DecidableEq

def NewDataset (uri : String) : Dataset := ⟨[], uri⟩

/-- Len of dataset.go: number of keys in the quad map. -/
def Dataset.Len (d : Dataset) : Nat := d.quads.length

/-- Go map assignment `d.quads[q] = true`: a no-op when the pointer is
already a key, otherwise the key is added. -/
def Dataset.insertPtr (d : Dataset) (q : QuadPtr) : Dataset :=
  if d.quads.any (fun p => p.id == q.id) then d else ⟨d.quads ++ [q], d.uri⟩

/-- Add of dataset.go: insert a given quad pointer. -/
def Dataset.Add (d : Dataset) (q : QuadPtr) : Dataset := d.insertPtr q

/-- AddQuad of dataset.go: builds a fresh quad via NewQuad and inserts
its (fresh) pointer. -/
def Dataset.AddQuad (d : Dataset) (a : Alloc) (s p o : Term) (g : Option Term) :
    Dataset × Alloc :=
  let qa := NewQuad a s p o g
  (d.insertPtr qa.1, qa.2)

/-- AddTriple of dataset.go: AddQuad with nil graph. -/
def Dataset.AddTriple (d : Dataset) (a : Alloc) (s p o : Term) : Dataset × Alloc :=
  d.AddQuad a s p o none

/-- Remove of dataset.go: Go `delete(d.quads, q)` removes the key equal
(as a pointer) to q. -/
def Dataset.Remove (d : Dataset) (q : QuadPtr) : Dataset :=
  ⟨d.quads.filter (fun p => p.id != q.id), d.uri⟩

/-- Merge of dataset.go: inserts every quad pointer of the other
dataset. -/
def Dataset.Merge (d : Dataset) (toMerge : Dataset) : Dataset :=
  toMerge.quads.foldl Dataset.Add d

/-- The pattern test of One/All in dataset.go, as the conjunction of the
four sequential `continue` checks: nil subject/predicate/object match
anything, a nil graph parameter matches only nil-graph quads, a non-nil
graph parameter matches only quads whose graph is non-nil and Equal. -/
def Dataset.quadMatches (s p o g : Option Term) (q : Quad) : Bool :=
  (match s with | some t => q.Subject.Equal t | none => true) &&
  (match p with | some t => q.Predicate.Equal t | none => true) &&
  (match o with | some t => q.Object.Equal t | none => true) &&
  (match g, q.Graph with
   | some t, some qg => qg.Equal t
   | some _, none => false
   | none, some _ => false
   | none, none => true)

/-- One of dataset.go: the first stored quad passing all four checks,
or nil. -/
def Dataset.One (d : Dataset) (s p o g : Option Term) : Option QuadPtr :=
  d.quads.find? (fun qp => Dataset.quadMatches s p o g qp.val)

/-- All of dataset.go: every stored quad passing all four checks. -/
def Dataset.All (d : Dataset) (s p o g : Option Term) : List QuadPtr :=
  d.quads.filter (fun qp => Dataset.quadMatches s p o g qp.val)

/-- Number of distinct quad values stored (the size of the
value-deduplicated set of quads), as opposed to Len which counts
pointers. -/
def Dataset.distinctQuadValues (d : Dataset) : Nat :=
  ((d.quads.map QuadPtr.val).dedup).length

section ConcreteTerms

def tA : Term := NewResource "a"

def tB : Term := NewResource "b"

def tC : Term := NewResource "c"

def tG : Term := NewResource "g"

end ConcreteTerms

/-- C1 failing input: the same quad value (a,b,c,g) inserted twice via
two separate AddQuad calls (two separate NewQuad allocations). -/
def c1d : Dataset × Alloc :=
  let s1 := (NewDataset "u").AddQuad ⟨0⟩ tA tB tC (some tG)
  s1.1.AddQuad s1.2 tA tB tC (some tG)

/-- C2 failing input: value-equal quads inserted into two datasets via
separate allocations, then merged. -/
def c2first : Dataset × Alloc := (NewDataset "u").AddQuad ⟨0⟩ tA tB tC (some tG)

def c2second : Dataset × Alloc := (NewDataset "u").AddQuad c2first.2 tA tB tC (some tG)

def c2merged : Dataset := c2first.1.Merge c2second.1

/-- C3 failing input: Add of an allocated quad, then Remove of a
separately allocated, value-equal quad. -/
def c3p0 : QuadPtr × Alloc := NewQuad ⟨0⟩ tA tB tC (some tG)

def c3d : Dataset := (NewDataset "u").Add c3p0.1

def c3p1 : QuadPtr × Alloc := NewQuad c3p0.2 tA tB tC (some tG)

/-! ## Go string scanning helpers

Structural re-implementations (over `String.data`) of the Go standard
library string functions used by dataset.go, so that everything
evaluates inside the kernel. -/

def nlChar : Char := Char.ofNat 10

def braceL : Char := Char.ofNat 123

def braceR : Char := Char.ofNat 125

/-- strings.Split with a one-character separator, on char lists. -/
def splitOnCharAux (sep : Char) (acc : List Char) : List Char → List (List Char)
  | [] => [acc.reverse]
  | x :: xs =>
      if x == sep then acc.reverse :: splitOnCharAux sep [] xs
      else splitOnCharAux sep (x :: acc) xs

/-- strings.Split with a one-character separator. -/
def goSplit (sep : Char) (s : String) : List String :=
  (splitOnCharAux sep [] s.data).map String.mk

/-- strings.TrimSpace (ASCII whitespace suffices for the inputs of this
code). -/
def goTrim (s : String) : String :=
  String.mk (((s.data.dropWhile Char.isWhitespace).reverse.dropWhile Char.isWhitespace).reverse)

/-- strings.HasPrefix. -/
def goStartsWith (s pat : String) : Bool := pat.data.isPrefixOf s.data

/-- strings.HasSuffix. -/
def goEndsWith (s pat : String) : Bool := pat.data.reverse.isPrefixOf s.data.reverse

/-- strings.Contains with a one-character needle (the only uses in
dataset.go). -/
def goContainsChar (s : String) (c : Char) : Bool := s.data.any (fun x => x == c)

/-- strings.Join. -/
def goJoin (sep : String) : List String → String
  | [] => ""
  | [x] => x
  | x :: y :: xs => x ++ sep ++ goJoin sep (y :: xs)

/-! ## Mime registries and collaborators -/

/-- mimeParser of mime.go: format identifier to parser name. -/
def mimeParser : List (String × String) :=
  [("text/turtle", "turtle"),
   ("application/trig", "trig"),
   ("application/ld+json", "jsonld"),
   ("application/sparql-update", "internal")]

/-- mimeSerializer of mime.go: format identifier to serializer name. -/
def mimeSerializer : List (String × String) :=
  [("application/ld+json", "jsonld"),
   ("application/trig", "trig"),
   ("text/html", "internal")]

/-- Go map lookup `m[k]` on the registries: empty string when the key
is absent. -/
def lookupMime (m : List (String × String)) (k : String) : String :=
  match m.find? (fun e => e.1 == k) with
  | some e => e.2
  | none => ""

/-- Modelled from the spec: the repository's triple.go is not in the
provided sources; a triple is three required term references
(section 3).  Used as the output shape of both collaborator oracles. -/
structure Triple where
  Subject : Term
  Predicate : Term
  Object : Term
deriving DecidableEq

/-- Options passed to the external JSON-LD processor (Base and
ProduceGeneralizedRdf of gojsonld.Options). -/
structure JsonldOptions where
  base : String
  produceGeneralizedRdf : Bool
deriving DecidableEq

/-- The two external collaborators (gon3 and gojsonld - third-party
libraries, not code of this repository), abstracted as oracles per
section 6 of the spec: the Turtle grammar parser takes a base IRI and
the content and yields triples or a parse error; the JSON-LD processor
takes expansion options and the raw bytes and yields triples or an
error (covering both its ReadJSON and ToRDF failure points). -/

structure Collaborators where
  turtleParse : String → String → Except String (List Triple)
  jsonldToRDF : JsonldOptions → String → Except String (List Triple)

/-! ## TriG parsing (dataset.go) -/

/-- parseGraphName of dataset.go: strip one pair of angle brackets if
present, otherwise use the raw text as the resource URI. -/
def parseGraphName (graphStr : String) : Term :=
  let g := goTrim graphStr
  if goStartsWith g "<" && goEndsWith g ">" then
    NewResource (String.mk (g.data.drop 1).dropLast)
  else NewResource g

/-- processTripleLines of dataset.go: join the collected lines, hand
them to the external Turtle grammar parser scoped to the dataset's base
URI; on a parse error skip the whole group, otherwise add each
resulting triple as a quad tagged with the current graph. -/
def Dataset.processTripleLines (c : Collaborators) (d : Dataset) (a : Alloc)
    (lines : List String) (currentGraph : Option Term) : Dataset × Alloc :=
  let content := goJoin "\n" lines
  match c.turtleParse d.uri content with
  | Except.error _ => (d, a)
  | Except.ok ts =>
      ts.foldl (fun da t => Dataset.AddQuad da.1 da.2 t.Subject t.Predicate t.Object currentGraph) (d, a)

/-- The loop state of parseTrig: the dataset and allocator being
populated, the active graph term, and the pending statement-group
lines. -/
structure TrigState where
  d : Dataset
  a : Alloc
  g : Option Term
  pending : List String

/-- One iteration of the parseTrig line loop of dataset.go, with the
exact branch order of the Go code: skip blank and comment lines, skip
prefix declarations, a line containing an opening brace selects the
active graph, a line containing a closing brace flushes the pending
group and resets to the default graph, any other line is accumulated
and the group is flushed when the line ends with a period. -/
def trigStep (c : Collaborators) (st : TrigState) (rawLine : String) : TrigState :=
  let line := goTrim rawLine
  if line == "" || goStartsWith line "#" then st
  else if goStartsWith line "@prefix" then st
  else if goContainsChar line braceL then
    let parts := goSplit braceL line
    if parts.length > 1 then
      let graphPart := goTrim (parts.headD "")
      if graphPart == "" then ⟨st.d, st.a, none, st.pending⟩
      else ⟨st.d, st.a, some (parseGraphName graphPart), st.pending⟩
    else st
  else if goContainsChar line braceR then
    let da :=
      if st.pending.length > 0 then st.d.processTripleLines c st.a st.pending st.g
      else (st.d, st.a)
    ⟨da.1, da.2, none, []⟩
  else if line != "" then
    let pending2 := st.pending ++ [line]
    if goEndsWith line "." then
      let da := st.d.processTripleLines c st.a pending2 st.g
      ⟨da.1, da.2, st.g, []⟩
    else ⟨st.d, st.a, st.g, pending2⟩
  else st

/-- parseTrig of dataset.go: split the content into lines, run the line
loop, then flush any remaining pending group.  Always succeeds (the Go
function unconditionally returns nil). -/
def Dataset.parseTrig (c : Collaborators) (d : Dataset) (a : Alloc) (content : String) :
    Dataset × Alloc :=
  let lines := goSplit nlChar content
  let st := lines.foldl (trigStep c) ⟨d, a, none, []⟩
  if st.pending.length > 0 then st.d.processTripleLines c st.a st.pending st.g
  else (st.d, st.a)

/-- Parse of dataset.go: look up the parser name for the mime type
(missing key yields the name "guess"), dispatch to the TriG scanner,
the JSON-LD oracle (with empty base IRI and generalized RDF disabled,
inserting every resulting triple via AddTriple, i.e. into the default
graph), the Turtle oracle (scoped to the dataset URI), or fail with an
unsupported-format error. -/
def Dataset.Parse (c : Collaborators) (d : Dataset) (a : Alloc)
    (input : String) (mime : String) : Except String (Dataset × Alloc) :=
  let parserName0 := lookupMime mimeParser mime
  let parserName := if parserName0.length == 0 then "guess" else parserName0
  if parserName == "trig" then Except.ok (d.parseTrig c a input)
  else if parserName == "jsonld" then
    match c.jsonldToRDF ⟨"", false⟩ input with
    | Except.error e => Except.error e
    | Except.ok ts =>
        Except.ok (ts.foldl (fun da t => Dataset.AddTriple da.1 da.2 t.Subject t.Predicate t.Object) (d, a))
  else if parserName == "turtle" then
    match c.turtleParse d.uri input with
    | Except.error e => Except.error e
    | Except.ok ts =>
        Except.ok (ts.foldl (fun da t => Dataset.AddTriple da.1 da.2 t.Subject t.Predicate t.Object) (d, a))
  else Except.error (parserName ++ " is not supported by the parser")

/-! ## Serialization (dataset.go) -/

/-- One step of the grouping loop of serializeTrig: append the quad to
the bucket of its graph key, creating the bucket at the end on first
sight of the key. -/
def addToBucket (m : List (String × List QuadPtr)) (k : String) (p : QuadPtr) :
    List (String × List QuadPtr) :=
  match m with
  | [] => [(k, [p])]
  | (k2, qs) :: rest =>
      if k2 == k then (k2, qs ++ [p]) :: rest
      else (k2, qs) :: addToBucket rest k p

/-- The body of the grouping loop of serializeTrig: a default-graph
quad goes to the default list, a named-graph quad to the bucket of its
graph term's canonical text. -/
def groupStep (acc : List QuadPtr × List (String × List QuadPtr)) (p : QuadPtr) :
    List QuadPtr × List (String × List QuadPtr) :=
  match p.val.Graph with
  | none => (acc.1 ++ [p], acc.2)
  | some g => (acc.1, addToBucket acc.2 g.String p)

/-- The grouping loop of serializeTrig: default-graph quads in
encounter order, and named-graph quads bucketed by the canonical text
of their graph term (Go map iteration order over buckets is
unspecified; the model fixes first-seen order). -/
def groupQuads (qs : List QuadPtr) : List QuadPtr × List (String × List QuadPtr) :=
  qs.foldl groupStep ([], [])

/-- One emitted triple line of serializeTrig: two-space indent, encoded
subject, predicate and object, period, newline. -/
def trigLine (p : QuadPtr) : String :=
  "  " ++ encodeTerm p.val.Subject ++ " " ++ encodeTerm p.val.Predicate ++ " " ++
    encodeTerm p.val.Object ++ " .\n"

/-- serializeTrig of dataset.go: the default-graph block (only when
non-empty) first as a bare brace block, then one block per named-graph
bucket headed by the graph key. -/
def Dataset.serializeTrig (d : Dataset) : String :=
  let grouped := groupQuads d.quads
  (if grouped.1.length > 0 then
      "\x7b\n" ++ String.join (grouped.1.map trigLine) ++ "\x7d\n"
   else "") ++
  String.join (grouped.2.map
    (fun e => "\n" ++ e.1 ++ " \x7b\n" ++ String.join (e.2.map trigLine) ++ "\x7d\n"))

/-- serializeNQuads of dataset.go: Fprintln of Quad.String for every
stored quad. -/
def Dataset.serializeNQuads (d : Dataset) : String :=
  String.join (d.quads.map (fun p => p.val.String ++ "\n"))

/-- Serialize of dataset.go: dispatch on the serializer name looked up
in the registry; any name other than trig and jsonld (including the
empty name of an unregistered mime type) falls through to the NQuads
serializer.  The JSON-LD serializer is irrelevant to the claims under
study and abstracted as a parameter. -/
def Dataset.Serialize (jsonldSer : Dataset → Except String String) (d : Dataset)
    (mime : String) : Except String String :=
  let serializerName := lookupMime mimeSerializer mime
  if serializerName == "trig" then Except.ok d.serializeTrig
  else if serializerName == "jsonld" then jsonldSer d
  else Except.ok d.serializeNQuads

/-- A dataset holding the single quad value (a, b, c, g), under pointer
id 0. -/
def dABCG : Dataset := ⟨[⟨0, ⟨tA, tB, tC, some tG⟩⟩], "u"⟩

/-- Collaborators that always fail; used to instantiate universally
quantified oracle parameters at concrete inputs. -/
def failingOracles : Collaborators :=
  ⟨fun _ _ => Except.error "e", fun _ _ => Except.error "e"⟩

/-- Collaborators whose JSON-LD oracle yields exactly the triple
(a, b, c); the Turtle oracle always fails. -/
def jsonldOracle : Collaborators :=
  ⟨fun _ _ => Except.error "e", fun _ _ => Except.ok [⟨tA, tB, tC⟩]⟩

/-- The dataset and allocator produced by parsing with jsonldOracle
from an empty dataset. -/
def jsonldParseResult : Dataset × Alloc := (⟨[⟨0, ⟨tA, tB, tC, none⟩⟩], "u"⟩, ⟨1⟩)

/-! ## Claim C8 -/

/-- The flat quad line as the spec words it: the canonical term
encodings joined by single spaces, the graph term included only when
present, then a period and a newline. -/
def flatLine (q : Quad) : String :=
  goJoin " " ([q.Subject.String, q.Predicate.String, q.Object.String] ++
      (match q.Graph with | some g => [g.String] | none => [])) ++ " .\n"

/-! ## Claim C5 -/

/-- A dataset holding the triple (a, b, c) both in the default graph
(pointer 0) and in the named graph g (pointer 1). -/
def c5d : Dataset := ⟨[⟨0, ⟨tA, tB, tC, none⟩⟩, ⟨1, ⟨tA, tB, tC, some tG⟩⟩], "u"⟩

/-! ## Claim C6: the TriG scanner as a group extractor -/

/-- The pure scanning state of parseTrig: the active graph, the pending
statement-group lines, and the statement groups handed to the Turtle
grammar parser so far, each paired with the graph term active at its
flush. -/
structure TrigScan where
  g : Option Term
  pending : List String
  groups : List (List String × Option Term)

/-- The dataset-free shadow of trigStep: identical line scanning, but
recording each flushed statement group instead of parsing it. -/
def trigScanStep (st : TrigScan) (rawLine : String) : TrigScan :=
  let line := goTrim rawLine
  if line == "" || goStartsWith line "#" then st
  else if goStartsWith line "@prefix" then st
  else if goContainsChar line braceL then
    let parts := goSplit braceL line
    if parts.length > 1 then
      let graphPart := goTrim (parts.headD "")
      if graphPart == "" then ⟨none, st.pending, st.groups⟩
      else ⟨some (parseGraphName graphPart), st.pending, st.groups⟩
    else st
  else if goContainsChar line braceR then
    let groups2 :=
      if st.pending.length > 0 then st.groups ++ [(st.pending, st.g)] else st.groups
    ⟨none, [], groups2⟩
  else if line != "" then
    let pending2 := st.pending ++ [line]
    if goEndsWith line "." then ⟨st.g, [], st.groups ++ [(pending2, st.g)]⟩
    else ⟨st.g, pending2, st.groups⟩
  else st

/-- The statement groups the parseTrig scanner hands to the Turtle
grammar parser for a given content, in order, each with its active
graph term (the trailing flush of a non-empty pending buffer
included). -/
def trigGroups (content : String) : List (List String × Option Term) :=
  let st := (goSplit nlChar content).foldl trigScanStep ⟨none, [], []⟩
  st.groups ++ (if st.pending.length > 0 then [(st.pending, st.g)] else [])

/-- Processing a list of statement groups in order, threading the
dataset and allocator. -/
def runGroups (c : Collaborators) (da : Dataset × Alloc)
    (gs : List (List String × Option Term)) : Dataset × Alloc :=
  gs.foldl (fun da2 gr => Dataset.processTripleLines c da2.1 da2.2 gr.1 gr.2) da

/-- Allocator freshness: every stored pointer was allocated before the
current allocation counter.  Holds for every dataset built by the
operations of this development and is what makes a NewQuad pointer
distinct from every stored pointer. -/
def wfFresh (d : Dataset) (a : Alloc) : Prop := ∀ p ∈ d.quads, p.id < a.next

/-- The dataset stores some pointer whose pointee is the given quad
value. -/
def hasQuadValue (d : Dataset) (v : Quad) : Prop := ∃ p ∈ d.quads, p.val = v

def tA2 : Term := NewResource "a2"

def tB2 : Term := NewResource "b2"

def tC2 : Term := NewResource "c2"

/-- A concrete TriG document with one default-graph block holding three
statement groups, the middle of which is malformed. -/
def c6content : String := "\x7b\n<a> <b> <c> .\nBAD .\n<a2> <b2> <c2> .\n\x7d"

/-- A concrete Turtle grammar oracle accepting exactly the two
well-formed statement groups of c6content. -/
def c6oracle : Collaborators :=
  ⟨fun _ content =>
      if content == "<a> <b> <c> ." then Except.ok [⟨tA, tB, tC⟩]
      else if content == "<a2> <b2> <c2> ." then Except.ok [⟨tA2, tB2, tC2⟩]
      else Except.error "parse error",
   fun _ _ => Except.error "e"⟩

/-! ## Claim C9: serializeTrig partitions the quads -/

/-- Concatenation of all named buckets, in bucket order. -/
def bucketsFlatten : List (String × List QuadPtr) → List QuadPtr
  | [] => []
  | e :: rest => e.2 ++ bucketsFlatten rest

/-- Every quad of every bucket carries the bucket's key as the
canonical text of its graph term. -/
def keyed (m : List (String × List QuadPtr)) : Prop :=
  ∀ e ∈ m, ∀ p ∈ e.2, Option.map Term.String p.val.Graph = some e.1

/-- A dataset with one default-graph quad and one quad in the named
graph g. -/
def c9d : Dataset := ⟨[⟨0, ⟨tA, tB, tC, none⟩⟩, ⟨1, ⟨tA2, tB2, tC2, some tG⟩⟩], "u"⟩

/-- Claim C1: the claim says the second value-equal insertion leaves
Len() = 1 (dedup by value).  The code keys the store by `*Quad`
pointer: both allocations remain, Len() = 2 although only one distinct
quad value is stored. -/
theorem addQuad_twice_double_stores :
    c1d.1.Len = 2 ∧ c1d.1.distinctQuadValues = 1 := by decide

/-- Claim C2: the claim says Merge leaves Len() equal to the size of the
value-deduplicated union (here 1).  The code inserts the other
dataset's pointers, which are distinct from this dataset's pointers
even at equal quad values, so Len() = 2 while only one distinct quad
value is stored in the merged dataset. -/
theorem merge_double_counts_value_equal_quads :
    c2first.1.Len = 1 ∧ c2second.1.Len = 1 ∧
    c2merged.Len = 2 ∧ c2merged.distinctQuadValues = 1 := by decide

/-- Claim C3: the claim says Remove deletes by value equality, so
removing a separately constructed value-equal quad restores Len() to
its prior value (0 here).  The code's Remove is a Go map delete keyed
by pointer: the value-equal quad c3p1 (Quad.Equal to the stored one)
removes nothing and Len() stays 1. -/
theorem remove_by_value_fails :
    c3d.Len = 1 ∧
    (c3p1.1.val.Equal c3p0.1.val) = true ∧
    (c3d.Remove c3p1.1).Len = 1 := by decide

/-! ## Basic membership lemmas -/

theorem mem_insertPtr {d : Dataset} {q p : QuadPtr} (h : p ∈ (d.insertPtr q).quads) :
    p ∈ d.quads ∨ p = q := by
  unfold Dataset.insertPtr at h
  by_cases hc : d.quads.any (fun r => r.id == q.id)
  · rw [if_pos hc] at h
    exact Or.inl h
  · rw [if_neg hc] at h
    rcases List.mem_append.mp h with h1 | h1
    · exact Or.inl h1
    · exact Or.inr (List.mem_singleton.mp h1)

theorem mem_insertPtr_of_mem {d : Dataset} {q p : QuadPtr} (h : p ∈ d.quads) :
    p ∈ (d.insertPtr q).quads := by
  unfold Dataset.insertPtr
  by_cases hc : d.quads.any (fun r => r.id == q.id)
  · rw [if_pos hc]; exact h
  · rw [if_neg hc]; exact List.mem_append.mpr (Or.inl h)

theorem mem_foldl_addTriple (ts : List Triple) :
    ∀ (da : Dataset × Alloc) (p : QuadPtr),
      p ∈ (ts.foldl (fun da t => Dataset.AddTriple da.1 da.2 t.Subject t.Predicate t.Object) da).1.quads →
      p ∈ da.1.quads ∨ p.val.Graph = none := by
  induction ts with
  | nil => intro da p h; exact Or.inl h
  | cons t rest ih =>
      intro da p h
      rcases ih _ p h with h1 | h1
      · rcases mem_insertPtr h1 with h2 | h2
        · exact Or.inl h2
        · rw [h2]; exact Or.inr rfl
      · exact Or.inr h1

/-! ## Claim C10 -/

/-- Claim C10: Parse with format application/trig never returns an
error: the TriG branch wraps the total function parseTrig, whose Go
original unconditionally returns nil; malformed content never surfaces
as an error to the caller. -/
theorem parse_trig_total (c : Collaborators) (d : Dataset) (a : Alloc) (input : String) :
    Dataset.Parse c d a input "application/trig" = Except.ok (d.parseTrig c a input) := rfl

/-! ## Claim C4 -/

/-- Claim C4 (amended): Parse surfaces an error for every mime type
absent from the parser registry, for every input and every collaborator
behaviour; Serialize however does not error on a mime type absent from
the serializer registry - it falls back to the NQuads serializer and
reports success. -/
theorem unsupported_format_parse_serialize :
    (∀ (c : Collaborators) (d : Dataset) (a : Alloc) (input mime : String),
        lookupMime mimeParser mime = "" →
        Dataset.Parse c d a input mime = Except.error "guess is not supported by the parser") ∧
    (∀ (js : Dataset → Except String String) (d : Dataset) (mime : String),
        lookupMime mimeSerializer mime = "" →
        Dataset.Serialize js d mime = Except.ok d.serializeNQuads) := by
  constructor
  · intro c d a input mime h
    unfold Dataset.Parse
    rw [h]
    rfl
  · intro js d mime h
    unfold Dataset.Serialize
    rw [h]
    rfl

/-- Claim C4 counterexample: "application/n-quads" has no registered
serializer, yet Serialize succeeds and writes the NQuads serialization
instead of surfacing an error (the repository's own
TestDatasetSerializeNQuads relies on this fallback). -/
theorem serialize_unregistered_mime_writes_nquads :
    lookupMime mimeSerializer "application/n-quads" = "" ∧
    Dataset.Serialize (fun _ => Except.error "unused") dABCG "application/n-quads" =
      Except.ok "<a> <b> <c> <g> .\n" := ⟨rfl, rfl⟩

/-- Witness for unsupported_format_parse_serialize at the unregistered
mime type "text/plain". -/
theorem unsupported_format_parse_serialize_witness :
    Dataset.Parse failingOracles (NewDataset "u") ⟨0⟩ "" "text/plain" =
      Except.error "guess is not supported by the parser" ∧
    Dataset.Serialize (fun _ => Except.error "unused") dABCG "text/plain" =
      Except.ok dABCG.serializeNQuads :=
  ⟨unsupported_format_parse_serialize.1 failingOracles (NewDataset "u") ⟨0⟩ "" "text/plain" rfl,
   unsupported_format_parse_serialize.2 (fun _ => Except.error "unused") dABCG "text/plain" rfl⟩

/-! ## Claim C7 -/

/-- Claim C7: a successful JSON-LD Parse invokes the external expansion
with empty base IRI and generalized RDF disabled and inserts every
resulting triple via AddTriple; consequently every quad of the result
that was not already stored has an absent graph term - named-graph
membership is never reconstructed from JSON-LD input. -/
theorem parse_jsonld_default_graph_only
    (c : Collaborators) (d : Dataset) (a : Alloc) (input : String) (res : Dataset × Alloc)
    (h : Dataset.Parse c d a input "application/ld+json" = Except.ok res) :
    (∃ ts, c.jsonldToRDF ⟨"", false⟩ input = Except.ok ts ∧
        res = ts.foldl (fun da t => Dataset.AddTriple da.1 da.2 t.Subject t.Predicate t.Object) (d, a)) ∧
    ∀ p ∈ res.1.quads, p ∈ d.quads ∨ p.val.Graph = none := by
  have e : Dataset.Parse c d a input "application/ld+json" =
      (match c.jsonldToRDF ⟨"", false⟩ input with
       | Except.error e => Except.error e
       | Except.ok ts =>
           Except.ok (ts.foldl (fun da t => Dataset.AddTriple da.1 da.2 t.Subject t.Predicate t.Object) (d, a))) := rfl
  rw [e] at h
  cases hj : c.jsonldToRDF ⟨"", false⟩ input with
  | error msg => rw [hj] at h; cases h
  | ok ts =>
      rw [hj] at h
      have hres := (Except.ok.injEq _ _).mp h
      constructor
      · exact ⟨ts, rfl, hres.symm⟩
      · intro p hp
        rw [← hres] at hp
        exact mem_foldl_addTriple ts (d, a) p hp

/-- Witness for parse_jsonld_default_graph_only on a concrete oracle
and input. -/
theorem parse_jsonld_default_graph_only_witness :
    (∃ ts, jsonldOracle.jsonldToRDF ⟨"", false⟩ "in" = Except.ok ts ∧
        jsonldParseResult = ts.foldl
          (fun da t => Dataset.AddTriple da.1 da.2 t.Subject t.Predicate t.Object)
          (NewDataset "u", ⟨0⟩)) ∧
    ∀ p ∈ jsonldParseResult.1.quads, p ∈ (NewDataset "u").quads ∨ p.val.Graph = none :=
  parse_jsonld_default_graph_only jsonldOracle (NewDataset "u") ⟨0⟩ "in" jsonldParseResult rfl

theorem flatLine_eq (q : Quad) : flatLine q = q.String ++ "\n" := by
  cases hg : q.Graph with
  | none => simp [flatLine, Quad.String, hg, goJoin, String.append_assoc]
  | some g => simp [flatLine, Quad.String, hg, goJoin, String.append_assoc]

/-- Claim C8: the quad (a, b, c, g) serializes to the flat format as
exactly one NQuads line, and in general the flat serializer emits one
flat line (encodings joined by single spaces, graph only when present,
then period and newline) per stored quad. -/
theorem nquads_flat_line_format :
    dABCG.serializeNQuads = "<a> <b> <c> <g> .\n" ∧
    ∀ d : Dataset, d.serializeNQuads = String.join (d.quads.map (fun p => flatLine p.val)) := by
  constructor
  · rfl
  · intro d
    simp [Dataset.serializeNQuads, flatLine_eq]

/-- Claim C5 counterexample: the quad (a, b, c) is stored with an
absent graph term, yet One(a, b, c, g) does not return the no-match
result - it returns the value-equal quad stored in the named graph g.
The claim's "returns the no-match result" clause fails on any dataset
that also stores a named-graph quad matching the triple. -/
theorem one_named_graph_not_nomatch :
    (⟨0, ⟨tA, tB, tC, none⟩⟩ : QuadPtr) ∈ c5d.quads ∧
    c5d.One (some tA) (some tB) (some tC) (some tG) =
      some ⟨1, ⟨tA, tB, tC, some tG⟩⟩ := by decide

/-- Claim C5 (amended): the nil graph parameter is a default-graph
sentinel and never a wildcard: One with a non-nil graph parameter only
ever returns a quad whose graph is present and Equal to it (in
particular never a default-graph quad); One with a nil graph parameter
only ever returns default-graph quads, and finds one whenever a
default-graph quad matches the triple; All obeys the same graph rule
while nil subject, predicate and object act as wildcards. -/
theorem one_all_graph_sentinel (d : Dataset) (s p o g : Term) :
    (∀ r, d.One (some s) (some p) (some o) (some g) = some r →
        ∃ rg, r.val.Graph = some rg ∧ rg.Equal g = true) ∧
    (∀ r, d.One (some s) (some p) (some o) none = some r → r.val.Graph = none) ∧
    ((∃ q ∈ d.quads,
        (q.val.Subject.Equal s && q.val.Predicate.Equal p && q.val.Object.Equal o) = true ∧
        q.val.Graph = none) →
      ∃ r, d.One (some s) (some p) (some o) none = some r) ∧
    (∀ g2 : Term, d.All none none none (some g2) =
        d.quads.filter (fun r =>
          match r.val.Graph with | some rg => rg.Equal g2 | none => false)) ∧
    (d.All none none none none = d.quads.filter (fun r => r.val.Graph.isNone)) := by
  refine ⟨?_, ?_, ?_, ?_, ?_⟩
  · intro r hr
    have hm := List.find?_some hr
    unfold Dataset.quadMatches at hm
    have hg := ((Bool.and_eq_true _ _).mp hm).2
    cases hcase : r.val.Graph with
    | none => rw [hcase] at hg; cases hg
    | some rg =>
        rw [hcase] at hg
        exact ⟨rg, rfl, hg⟩
  · intro r hr
    have hm := List.find?_some hr
    unfold Dataset.quadMatches at hm
    have hg := ((Bool.and_eq_true _ _).mp hm).2
    cases hcase : r.val.Graph with
    | none => rfl
    | some rg => rw [hcase] at hg; cases hg
  · rintro ⟨q, hq, htriple, hgraph⟩
    have hmatch : Dataset.quadMatches (some s) (some p) (some o) none q.val = true := by
      unfold Dataset.quadMatches
      rw [hgraph]
      show (q.val.Subject.Equal s && q.val.Predicate.Equal p && q.val.Object.Equal o) && true = true
      rw [htriple]
      rfl
    have : (d.quads.find? (fun qp => Dataset.quadMatches (some s) (some p) (some o) none qp.val)).isSome = true :=
      List.find?_isSome.mpr ⟨q, hq, hmatch⟩
    exact Option.isSome_iff_exists.mp this
  · intro g2
    unfold Dataset.All
    apply List.filter_congr
    intro r _
    unfold Dataset.quadMatches
    cases r.val.Graph <;> rfl
  · unfold Dataset.All
    apply List.filter_congr
    intro r _
    unfold Dataset.quadMatches
    cases r.val.Graph <;> rfl

/-- Witness for one_all_graph_sentinel on the two-quad dataset c5d:
the default-graph existence branch fires for the stored default quad,
and the All characterizations evaluate on c5d. -/
theorem one_all_graph_sentinel_witness :
    (∃ r, c5d.One (some tA) (some tB) (some tC) none = some r) ∧
    c5d.All none none none none = c5d.quads.filter (fun r => r.val.Graph.isNone) :=
  ⟨(one_all_graph_sentinel c5d tA tB tC tG).2.2.1
      ⟨⟨0, ⟨tA, tB, tC, none⟩⟩, by decide, by decide, rfl⟩,
   (one_all_graph_sentinel c5d tA tB tC tG).2.2.2.2⟩

theorem runGroups_concat (c : Collaborators) (da : Dataset × Alloc)
    (gs : List (List String × Option Term)) (x : List String × Option Term) :
    runGroups c da (gs ++ [x]) =
      Dataset.processTripleLines c (runGroups c da gs).1 (runGroups c da gs).2 x.1 x.2 := by
  unfold runGroups
  rw [List.foldl_concat]

theorem trigStep_rel (c : Collaborators) (d : Dataset) (a : Alloc) (g : Option Term)
    (pending : List String) (groups : List (List String × Option Term))
    (da0 : Dataset × Alloc) (h : (d, a) = runGroups c da0 groups) (line : String) :
    (trigStep c ⟨d, a, g, pending⟩ line).g = (trigScanStep ⟨g, pending, groups⟩ line).g ∧
    (trigStep c ⟨d, a, g, pending⟩ line).pending = (trigScanStep ⟨g, pending, groups⟩ line).pending ∧
    ((trigStep c ⟨d, a, g, pending⟩ line).d, (trigStep c ⟨d, a, g, pending⟩ line).a) =
      runGroups c da0 (trigScanStep ⟨g, pending, groups⟩ line).groups := by
  have hd : d = (runGroups c da0 groups).1 := by rw [← h]
  have ha : a = (runGroups c da0 groups).2 := by rw [← h]
  dsimp only [trigStep, trigScanStep]
  by_cases h1 : (goTrim line == "" || goStartsWith (goTrim line) "#") = true
  · rw [if_pos h1, if_pos h1]
    exact ⟨rfl, rfl, h⟩
  · rw [if_neg h1, if_neg h1]
    by_cases h2 : goStartsWith (goTrim line) "@prefix" = true
    · rw [if_pos h2, if_pos h2]
      exact ⟨rfl, rfl, h⟩
    · rw [if_neg h2, if_neg h2]
      by_cases h3 : goContainsChar (goTrim line) braceL = true
      · rw [if_pos h3, if_pos h3]
        by_cases h3a : (goSplit braceL (goTrim line)).length > 1
        · rw [if_pos h3a, if_pos h3a]
          by_cases h3b : (goTrim ((goSplit braceL (goTrim line)).headD "") == "") = true
          · rw [if_pos h3b, if_pos h3b]
            exact ⟨rfl, rfl, h⟩
          · rw [if_neg h3b, if_neg h3b]
            exact ⟨rfl, rfl, h⟩
        · rw [if_neg h3a, if_neg h3a]
          exact ⟨rfl, rfl, h⟩
      · rw [if_neg h3, if_neg h3]
        by_cases h4 : goContainsChar (goTrim line) braceR = true
        · rw [if_pos h4, if_pos h4]
          by_cases h4a : pending.length > 0
          · rw [if_pos h4a, if_pos h4a]
            refine ⟨rfl, rfl, ?_⟩
            rw [Prod.mk.eta, runGroups_concat, ← hd, ← ha]
          · rw [if_neg h4a, if_neg h4a]
            exact ⟨rfl, rfl, h⟩
        · rw [if_neg h4, if_neg h4]
          by_cases h5 : (goTrim line != "") = true
          · rw [if_pos h5, if_pos h5]
            by_cases h5a : goEndsWith (goTrim line) "." = true
            · rw [if_pos h5a, if_pos h5a]
              refine ⟨rfl, rfl, ?_⟩
              rw [Prod.mk.eta, runGroups_concat, ← hd, ← ha]
            · rw [if_neg h5a, if_neg h5a]
              exact ⟨rfl, rfl, h⟩
          · rw [if_neg h5, if_neg h5]
            exact ⟨rfl, rfl, h⟩

theorem trig_sim (c : Collaborators) (lines : List String) :
    ∀ (d : Dataset) (a : Alloc) (g : Option Term) (pending : List String)
      (groups : List (List String × Option Term)) (da0 : Dataset × Alloc),
      (d, a) = runGroups c da0 groups →
      (lines.foldl (trigStep c) ⟨d, a, g, pending⟩).g =
        (lines.foldl trigScanStep ⟨g, pending, groups⟩).g ∧
      (lines.foldl (trigStep c) ⟨d, a, g, pending⟩).pending =
        (lines.foldl trigScanStep ⟨g, pending, groups⟩).pending ∧
      ((lines.foldl (trigStep c) ⟨d, a, g, pending⟩).d,
        (lines.foldl (trigStep c) ⟨d, a, g, pending⟩).a) =
        runGroups c da0 (lines.foldl trigScanStep ⟨g, pending, groups⟩).groups := by
  induction lines with
  | nil =>
      intro d a g pending groups da0 h
      exact ⟨rfl, rfl, h⟩
  | cons line rest ih =>
      intro d a g pending groups da0 h
      have step := trigStep_rel c d a g pending groups da0 h line
      rcases step with ⟨sg, sp, sda⟩
      have expand1 : (line :: rest).foldl (trigStep c) ⟨d, a, g, pending⟩ =
          rest.foldl (trigStep c) (trigStep c ⟨d, a, g, pending⟩ line) := rfl
      have expand2 : (line :: rest).foldl trigScanStep ⟨g, pending, groups⟩ =
          rest.foldl trigScanStep (trigScanStep ⟨g, pending, groups⟩ line) := rfl
      rw [expand1, expand2]
      have hst : trigStep c ⟨d, a, g, pending⟩ line =
          ⟨(trigStep c ⟨d, a, g, pending⟩ line).d, (trigStep c ⟨d, a, g, pending⟩ line).a,
            (trigStep c ⟨d, a, g, pending⟩ line).g, (trigStep c ⟨d, a, g, pending⟩ line).pending⟩ := rfl
      have hss : trigScanStep ⟨g, pending, groups⟩ line =
          ⟨(trigScanStep ⟨g, pending, groups⟩ line).g,
            (trigScanStep ⟨g, pending, groups⟩ line).pending,
            (trigScanStep ⟨g, pending, groups⟩ line).groups⟩ := rfl
      rw [hst, hss, sg, sp]
      exact ih _ _ _ _ _ da0 sda

theorem parseTrig_eq_runGroups (c : Collaborators) (d : Dataset) (a : Alloc)
    (content : String) :
    d.parseTrig c a content = runGroups c (d, a) (trigGroups content) := by
  unfold Dataset.parseTrig trigGroups
  have h := trig_sim c (goSplit nlChar content) d a none [] [] (d, a) rfl
  rcases h with ⟨hg, hp, hda⟩
  dsimp only
  by_cases h0 : ((goSplit nlChar content).foldl (trigStep c) ⟨d, a, none, []⟩).pending.length > 0
  · rw [if_pos h0]
    have h0s : ((goSplit nlChar content).foldl trigScanStep ⟨none, [], []⟩).pending.length > 0 := by
      rw [← hp]; exact h0
    rw [if_pos h0s, runGroups_concat]
    have hd1 : ((goSplit nlChar content).foldl (trigStep c) ⟨d, a, none, []⟩).d =
        (runGroups c (d, a) ((goSplit nlChar content).foldl trigScanStep ⟨none, [], []⟩).groups).1 := by
      rw [← hda]
    have ha1 : ((goSplit nlChar content).foldl (trigStep c) ⟨d, a, none, []⟩).a =
        (runGroups c (d, a) ((goSplit nlChar content).foldl trigScanStep ⟨none, [], []⟩).groups).2 := by
      rw [← hda]
    rw [hd1, ha1, hp, hg]
  · rw [if_neg h0]
    have h0s : ¬ ((goSplit nlChar content).foldl trigScanStep ⟨none, [], []⟩).pending.length > 0 := by
      rw [← hp]; exact h0
    rw [if_neg h0s, List.append_nil]
    exact hda

/-! ## Freshness, uri invariance and value membership -/

theorem wfFresh_nil (uri : String) (n : Nat) : wfFresh (NewDataset uri) ⟨n⟩ := by
  intro p hp
  cases hp

theorem insertPtr_fresh_appends {d : Dataset} {a : Alloc} (hwf : wfFresh d a)
    {v : Quad} : d.insertPtr ⟨a.next, v⟩ = ⟨d.quads ++ [⟨a.next, v⟩], d.uri⟩ := by
  unfold Dataset.insertPtr
  have hany : d.quads.any (fun p => p.id == (⟨a.next, v⟩ : QuadPtr).id) = false := by
    rw [List.any_eq_false]
    intro p hp heq
    have hid : p.id = a.next := eq_of_beq heq
    have hlt := hwf p hp
    rw [hid] at hlt
    exact lt_irrefl _ hlt
  rw [hany]
  rfl

theorem addQuad_wf {d : Dataset} {a : Alloc} (hwf : wfFresh d a) (s p o : Term)
    (g : Option Term) :
    wfFresh (d.AddQuad a s p o g).1 (d.AddQuad a s p o g).2 := by
  unfold Dataset.AddQuad NewQuad
  dsimp only
  rw [insertPtr_fresh_appends hwf]
  intro q hq
  rcases List.mem_append.mp hq with h1 | h1
  · exact Nat.lt_trans (hwf q h1) (Nat.lt_succ_self _)
  · rw [List.mem_singleton.mp h1]
    exact Nat.lt_succ_self _

theorem addQuad_hasValue {d : Dataset} {a : Alloc} (hwf : wfFresh d a) (s p o : Term)
    (g : Option Term) : hasQuadValue (d.AddQuad a s p o g).1 ⟨s, p, o, g⟩ := by
  unfold Dataset.AddQuad NewQuad
  dsimp only
  rw [insertPtr_fresh_appends hwf]
  exact ⟨⟨a.next, ⟨s, p, o, g⟩⟩, List.mem_append.mpr (Or.inr (List.mem_singleton.mpr rfl)), rfl⟩

theorem addQuad_hasValue_mono {d : Dataset} {a : Alloc} {v : Quad}
    (h : hasQuadValue d v) (s p o : Term) (g : Option Term) :
    hasQuadValue (d.AddQuad a s p o g).1 v := by
  rcases h with ⟨q, hq, hv⟩
  exact ⟨q, mem_insertPtr_of_mem hq, hv⟩

theorem addQuad_uri (d : Dataset) (a : Alloc) (s p o : Term) (g : Option Term) :
    (d.AddQuad a s p o g).1.uri = d.uri := by
  unfold Dataset.AddQuad NewQuad Dataset.insertPtr
  dsimp only
  by_cases hc : d.quads.any (fun q => q.id == a.next) = true
  · rw [if_pos hc]
  · rw [if_neg hc]

theorem foldl_addQuad_wf (ts : List Triple) (g : Option Term) :
    ∀ (da : Dataset × Alloc), wfFresh da.1 da.2 →
      wfFresh (ts.foldl (fun da2 t => Dataset.AddQuad da2.1 da2.2 t.Subject t.Predicate t.Object g) da).1
        (ts.foldl (fun da2 t => Dataset.AddQuad da2.1 da2.2 t.Subject t.Predicate t.Object g) da).2 := by
  induction ts with
  | nil => intro da h; exact h
  | cons t rest ih =>
      intro da h
      exact ih _ (addQuad_wf h t.Subject t.Predicate t.Object g)

theorem foldl_addQuad_uri (ts : List Triple) (g : Option Term) :
    ∀ (da : Dataset × Alloc),
      (ts.foldl (fun da2 t => Dataset.AddQuad da2.1 da2.2 t.Subject t.Predicate t.Object g) da).1.uri =
        da.1.uri := by
  induction ts with
  | nil => intro da; rfl
  | cons t rest ih =>
      intro da
      calc (List.foldl (fun da2 t => Dataset.AddQuad da2.1 da2.2 t.Subject t.Predicate t.Object g) da (t :: rest)).1.uri
          = (List.foldl (fun da2 t => Dataset.AddQuad da2.1 da2.2 t.Subject t.Predicate t.Object g)
              (da.1.AddQuad da.2 t.Subject t.Predicate t.Object g) rest).1.uri := rfl
        _ = (da.1.AddQuad da.2 t.Subject t.Predicate t.Object g).1.uri := ih _
        _ = da.1.uri := addQuad_uri da.1 da.2 t.Subject t.Predicate t.Object g

theorem foldl_addQuad_hasValue_mono (ts : List Triple) (g : Option Term) {v : Quad} :
    ∀ (da : Dataset × Alloc), hasQuadValue da.1 v →
      hasQuadValue (ts.foldl (fun da2 t => Dataset.AddQuad da2.1 da2.2 t.Subject t.Predicate t.Object g) da).1 v := by
  induction ts with
  | nil => intro da h; exact h
  | cons t rest ih =>
      intro da h
      exact ih _ (addQuad_hasValue_mono h t.Subject t.Predicate t.Object g)

theorem foldl_addQuad_inserts (ts : List Triple) (g : Option Term) :
    ∀ (da : Dataset × Alloc), wfFresh da.1 da.2 → ∀ t ∈ ts,
      hasQuadValue (ts.foldl (fun da2 t => Dataset.AddQuad da2.1 da2.2 t.Subject t.Predicate t.Object g) da).1
        ⟨t.Subject, t.Predicate, t.Object, g⟩ := by
  induction ts with
  | nil => intro da _ t ht; cases ht
  | cons t0 rest ih =>
      intro da hwf t ht
      rcases List.mem_cons.mp ht with h1 | h1
      · rw [h1]
        exact foldl_addQuad_hasValue_mono rest g _
          (addQuad_hasValue hwf t0.Subject t0.Predicate t0.Object g)
      · exact ih _ (addQuad_wf hwf t0.Subject t0.Predicate t0.Object g) t h1

theorem processTripleLines_wf {d : Dataset} {a : Alloc} (hwf : wfFresh d a)
    (c : Collaborators) (lines : List String) (g : Option Term) :
    wfFresh (d.processTripleLines c a lines g).1 (d.processTripleLines c a lines g).2 := by
  unfold Dataset.processTripleLines
  dsimp only
  cases hx : c.turtleParse d.uri (goJoin "\n" lines) with
  | error msg => exact hwf
  | ok ts => exact foldl_addQuad_wf ts g (d, a) hwf

theorem processTripleLines_uri (c : Collaborators) (d : Dataset) (a : Alloc)
    (lines : List String) (g : Option Term) :
    (d.processTripleLines c a lines g).1.uri = d.uri := by
  unfold Dataset.processTripleLines
  dsimp only
  cases hx : c.turtleParse d.uri (goJoin "\n" lines) with
  | error msg => rfl
  | ok ts => exact foldl_addQuad_uri ts g (d, a)

theorem processTripleLines_hasValue_mono {d : Dataset} {a : Alloc} {v : Quad}
    (h : hasQuadValue d v) (c : Collaborators) (lines : List String) (g : Option Term) :
    hasQuadValue (d.processTripleLines c a lines g).1 v := by
  unfold Dataset.processTripleLines
  dsimp only
  cases hx : c.turtleParse d.uri (goJoin "\n" lines) with
  | error msg => exact h
  | ok ts => exact foldl_addQuad_hasValue_mono ts g (d, a) h

theorem runGroups_wf (c : Collaborators) (gs : List (List String × Option Term)) :
    ∀ (da : Dataset × Alloc), wfFresh da.1 da.2 →
      wfFresh (runGroups c da gs).1 (runGroups c da gs).2 := by
  induction gs with
  | nil => intro da h; exact h
  | cons gr rest ih =>
      intro da h
      exact ih _ (processTripleLines_wf h c gr.1 gr.2)

theorem runGroups_uri (c : Collaborators) (gs : List (List String × Option Term)) :
    ∀ (da : Dataset × Alloc), (runGroups c da gs).1.uri = da.1.uri := by
  induction gs with
  | nil => intro da; rfl
  | cons gr rest ih =>
      intro da
      have step := processTripleLines_uri c da.1 da.2 gr.1 gr.2
      calc (runGroups c da (gr :: rest)).1.uri
          = (runGroups c (da.1.processTripleLines c da.2 gr.1 gr.2) rest).1.uri := rfl
        _ = (da.1.processTripleLines c da.2 gr.1 gr.2).1.uri := ih _
        _ = da.1.uri := step

theorem runGroups_hasValue_mono (c : Collaborators) (gs : List (List String × Option Term))
    {v : Quad} : ∀ (da : Dataset × Alloc), hasQuadValue da.1 v →
      hasQuadValue (runGroups c da gs).1 v := by
  induction gs with
  | nil => intro da h; exact h
  | cons gr rest ih =>
      intro da h
      exact ih _ (processTripleLines_hasValue_mono h c gr.1 gr.2)

/-- Claim C6: during TriG parsing, a statement group whose joined text
the external Turtle grammar parser rejects is dropped (the dataset and
allocator pass through unchanged) and parsing continues with the other
groups: every statement group of the document that the grammar parser
accepts has all of its triples inserted, tagged with the graph term
active at that group, regardless of malformed groups elsewhere in the
document. -/
theorem trig_group_drop_and_insert
    (c : Collaborators) (d : Dataset) (a : Alloc) (content : String) (hwf : wfFresh d a) :
    (∀ (lines2 : List String) (g2 : Option Term) (msg : String),
        c.turtleParse d.uri (goJoin "\n" lines2) = Except.error msg →
        d.processTripleLines c a lines2 g2 = (d, a)) ∧
    (∀ (ls : List String) (gname : Option Term) (ts : List Triple),
        (ls, gname) ∈ trigGroups content →
        c.turtleParse d.uri (goJoin "\n" ls) = Except.ok ts →
        ∀ t ∈ ts, hasQuadValue (d.parseTrig c a content).1
          ⟨t.Subject, t.Predicate, t.Object, gname⟩) := by
  constructor
  · intro lines2 g2 msg herr
    unfold Dataset.processTripleLines
    dsimp only
    rw [herr]
  · intro ls gname ts hmem hok t ht
    rw [parseTrig_eq_runGroups]
    rcases List.append_of_mem hmem with ⟨l1, l2, hsplit⟩
    rw [hsplit]
    have hcons : runGroups c (d, a) (l1 ++ (ls, gname) :: l2) =
        runGroups c
          (Dataset.processTripleLines c (runGroups c (d, a) l1).1 (runGroups c (d, a) l1).2 ls gname)
          l2 := by
      unfold runGroups
      rw [List.foldl_append]
      rfl
    rw [hcons]
    have hwf1 : wfFresh (runGroups c (d, a) l1).1 (runGroups c (d, a) l1).2 :=
      runGroups_wf c l1 (d, a) hwf
    have huri1 : (runGroups c (d, a) l1).1.uri = d.uri := runGroups_uri c l1 (d, a)
    have hproc : Dataset.processTripleLines c (runGroups c (d, a) l1).1 (runGroups c (d, a) l1).2 ls gname =
        ts.foldl (fun da2 t => Dataset.AddQuad da2.1 da2.2 t.Subject t.Predicate t.Object gname)
          ((runGroups c (d, a) l1).1, (runGroups c (d, a) l1).2) := by
      unfold Dataset.processTripleLines
      dsimp only
      rw [huri1, hok]
    apply runGroups_hasValue_mono
    rw [hproc]
    exact foldl_addQuad_inserts ts gname ((runGroups c (d, a) l1).1, (runGroups c (d, a) l1).2) hwf1 t ht

/-- Witness for trig_group_drop_and_insert: the malformed middle group
of c6content is dropped without touching the dataset, while the last
well-formed group's triple is inserted into the default graph. -/
theorem trig_group_drop_and_insert_witness :
    ((NewDataset "u").processTripleLines c6oracle ⟨0⟩ ["BAD ."] none = (NewDataset "u", ⟨0⟩)) ∧
    hasQuadValue ((NewDataset "u").parseTrig c6oracle ⟨0⟩ c6content).1 ⟨tA2, tB2, tC2, none⟩ :=
  ⟨(trig_group_drop_and_insert c6oracle (NewDataset "u") ⟨0⟩ c6content (wfFresh_nil "u" 0)).1
      ["BAD ."] none "parse error" rfl,
   (trig_group_drop_and_insert c6oracle (NewDataset "u") ⟨0⟩ c6content (wfFresh_nil "u" 0)).2
      ["<a2> <b2> <c2> ."] none [⟨tA2, tB2, tC2⟩] (by decide) rfl ⟨tA2, tB2, tC2⟩ (by decide)⟩

theorem groupStep_none {acc : List QuadPtr × List (String × List QuadPtr)}
    {p : QuadPtr} (h : p.val.Graph = none) : groupStep acc p = (acc.1 ++ [p], acc.2) := by
  unfold groupStep
  rw [h]

theorem groupStep_some {acc : List QuadPtr × List (String × List QuadPtr)}
    {p : QuadPtr} {g : Term} (h : p.val.Graph = some g) :
    groupStep acc p = (acc.1, addToBucket acc.2 g.String p) := by
  unfold groupStep
  rw [h]

theorem foldl_groupStep_fst :
    ∀ (qs : List QuadPtr) (acc : List QuadPtr × List (String × List QuadPtr)),
      (qs.foldl groupStep acc).1 = acc.1 ++ qs.filter (fun p => p.val.Graph.isNone) := by
  intro qs
  induction qs with
  | nil => intro acc; rw [List.filter_nil, List.append_nil]; rfl
  | cons p rest ih =>
      intro acc
      rw [List.foldl_cons]
      cases hg : p.val.Graph with
      | none =>
          rw [groupStep_none hg, ih]
          rw [List.filter_cons]
          have : (p.val.Graph.isNone : Bool) = true := by rw [hg]; rfl
          rw [this]
          simp only [if_true, List.append_assoc, List.singleton_append]
      | some g =>
          rw [groupStep_some hg, ih]
          rw [List.filter_cons]
          have : (p.val.Graph.isNone : Bool) = false := by rw [hg]; rfl
          rw [this]
          simp only [Bool.false_eq_true, if_false]

theorem addToBucket_flatten_perm :
    ∀ (m : List (String × List QuadPtr)) (k : String) (p : QuadPtr),
      List.Perm (bucketsFlatten (addToBucket m k p)) (bucketsFlatten m ++ [p]) := by
  intro m
  induction m with
  | nil =>
      intro k p
      show List.Perm ([p] ++ bucketsFlatten []) (bucketsFlatten [] ++ [p])
      exact List.Perm.refl _
  | cons e rest ih =>
      intro k p
      obtain ⟨k2, qs⟩ := e
      show List.Perm (bucketsFlatten (if k2 == k then (k2, qs ++ [p]) :: rest
          else (k2, qs) :: addToBucket rest k p)) _
      by_cases hk : (k2 == k) = true
      · rw [if_pos hk]
        show List.Perm ((qs ++ [p]) ++ bucketsFlatten rest) ((qs ++ bucketsFlatten rest) ++ [p])
        rw [List.append_assoc, List.append_assoc]
        exact List.Perm.append_left qs List.perm_append_comm
      · rw [if_neg hk]
        show List.Perm (qs ++ bucketsFlatten (addToBucket rest k p))
          ((qs ++ bucketsFlatten rest) ++ [p])
        rw [List.append_assoc]
        exact List.Perm.append_left qs (ih k p)

theorem foldl_groupStep_perm :
    ∀ (qs : List QuadPtr) (acc : List QuadPtr × List (String × List QuadPtr)),
      List.Perm ((qs.foldl groupStep acc).1 ++ bucketsFlatten (qs.foldl groupStep acc).2)
        ((acc.1 ++ bucketsFlatten acc.2) ++ qs) := by
  intro qs
  induction qs with
  | nil =>
      intro acc
      rw [List.append_nil]
      exact List.Perm.refl _
  | cons p rest ih =>
      intro acc
      rw [List.foldl_cons]
      cases hg : p.val.Graph with
      | none =>
          rw [groupStep_none hg]
          refine (ih (acc.1 ++ [p], acc.2)).trans ?_
          show List.Perm (((acc.1 ++ [p]) ++ bucketsFlatten acc.2) ++ rest)
            ((acc.1 ++ bucketsFlatten acc.2) ++ (p :: rest))
          rw [List.append_assoc acc.1 [p] (bucketsFlatten acc.2),
            List.append_assoc acc.1 ([p] ++ bucketsFlatten acc.2) rest,
            List.append_assoc [p] (bucketsFlatten acc.2) rest,
            List.append_assoc acc.1 (bucketsFlatten acc.2) (p :: rest)]
          refine List.Perm.append_left acc.1 ?_
          show List.Perm (p :: (bucketsFlatten acc.2 ++ rest)) (bucketsFlatten acc.2 ++ p :: rest)
          exact List.perm_middle.symm
      | some g =>
          rw [groupStep_some hg]
          refine (ih (acc.1, addToBucket acc.2 g.String p)).trans ?_
          show List.Perm ((acc.1 ++ bucketsFlatten (addToBucket acc.2 g.String p)) ++ rest)
            ((acc.1 ++ bucketsFlatten acc.2) ++ (p :: rest))
          refine (List.Perm.append_right rest
            (List.Perm.append_left acc.1 (addToBucket_flatten_perm acc.2 g.String p))).trans ?_
          rw [List.append_assoc acc.1 (bucketsFlatten acc.2 ++ [p]) rest,
            List.append_assoc (bucketsFlatten acc.2) [p] rest,
            List.append_assoc acc.1 (bucketsFlatten acc.2) (p :: rest)]
          exact List.Perm.refl _

theorem addToBucket_cons (k2 : String) (qs : List QuadPtr)
    (rest : List (String × List QuadPtr)) (k : String) (p : QuadPtr) :
    addToBucket ((k2, qs) :: rest) k p =
      if k2 == k then (k2, qs ++ [p]) :: rest else (k2, qs) :: addToBucket rest k p := rfl

theorem addToBucket_keyed {k : String} {p : QuadPtr}
    (hp : Option.map Term.String p.val.Graph = some k) :
    ∀ (m : List (String × List QuadPtr)), keyed m → keyed (addToBucket m k p) := by
  intro m
  induction m with
  | nil =>
      intro _ e he q hq
      have he2 : e = (k, [p]) := List.mem_singleton.mp he
      rw [he2] at hq ⊢
      have hq2 : q = p := List.mem_singleton.mp hq
      rw [hq2]
      exact hp
  | cons e0 rest ih =>
      intro hm e he q hq
      obtain ⟨k2, qs⟩ := e0
      by_cases hk : (k2 == k) = true
      · rw [addToBucket_cons, if_pos hk] at he
        rcases List.mem_cons.mp he with h1 | h1
        · rw [h1] at hq ⊢
          rcases List.mem_append.mp hq with h2 | h2
          · exact hm (k2, qs) (List.mem_cons_self _ _) q h2
          · have : q = p := List.mem_singleton.mp h2
            rw [this]
            rw [hp]
            have : k2 = k := eq_of_beq hk
            rw [this]
        · exact hm e (List.mem_cons_of_mem _ h1) q hq
      · rw [addToBucket_cons, if_neg hk] at he
        rcases List.mem_cons.mp he with h1 | h1
        · rw [h1] at hq ⊢
          exact hm (k2, qs) (List.mem_cons_self _ _) q hq
        · exact ih (fun e2 he2 => hm e2 (List.mem_cons_of_mem _ he2)) e h1 q hq

theorem foldl_groupStep_keyed :
    ∀ (qs : List QuadPtr) (acc : List QuadPtr × List (String × List QuadPtr)),
      keyed acc.2 → keyed (qs.foldl groupStep acc).2 := by
  intro qs
  induction qs with
  | nil => intro acc h; exact h
  | cons p rest ih =>
      intro acc h
      rw [List.foldl_cons]
      cases hg : p.val.Graph with
      | none =>
          rw [groupStep_none hg]
          exact ih _ h
      | some g =>
          rw [groupStep_some hg]
          refine ih _ ?_
          refine addToBucket_keyed ?_ acc.2 h
          rw [hg]
          rfl

/-- Claim C9: serializeTrig partitions the stored quads into buckets by
the canonical text of the graph term: the default bucket is exactly the
stored quads with absent graph (in order), the default and named
buckets together are a permutation of the stored quads (every stored
quad in exactly one bucket), every named bucket holds exactly quads
whose graph text is the bucket key, and the output is the default
bucket block (emitted first and only when the bucket is non-empty)
followed by one headed block per named bucket. -/
theorem serializeTrig_partitions (d : Dataset) :
    (groupQuads d.quads).1 = d.quads.filter (fun p => p.val.Graph.isNone) ∧
    List.Perm ((groupQuads d.quads).1 ++ bucketsFlatten (groupQuads d.quads).2) d.quads ∧
    keyed (groupQuads d.quads).2 ∧
    d.serializeTrig =
      (if (d.quads.filter (fun p => p.val.Graph.isNone)).length > 0 then
          "\x7b\n" ++ String.join ((d.quads.filter (fun p => p.val.Graph.isNone)).map trigLine) ++ "\x7d\n"
        else "") ++
      String.join ((groupQuads d.quads).2.map
        (fun e => "\n" ++ e.1 ++ " \x7b\n" ++ String.join (e.2.map trigLine) ++ "\x7d\n")) := by
  have h1 : (groupQuads d.quads).1 = d.quads.filter (fun p => p.val.Graph.isNone) := by
    show (d.quads.foldl groupStep ([], [])).1 = _
    rw [foldl_groupStep_fst]
    rfl
  refine ⟨h1, ?_, ?_, ?_⟩
  · exact foldl_groupStep_perm d.quads ([], [])
  · exact foldl_groupStep_keyed d.quads ([], []) (fun e he => absurd he (List.not_mem_nil e))
  · unfold Dataset.serializeTrig
    dsimp only
    rw [h1]

/-- Witness for serializeTrig_partitions: on c9d, the named bucket
keyed "<g>" holds exactly the named-graph quad, and the flattened
buckets are a permutation of the stored quads. -/
theorem serializeTrig_partitions_witness :
    Option.map Term.String (⟨1, ⟨tA2, tB2, tC2, some tG⟩⟩ : QuadPtr).val.Graph = some "<g>" ∧
    List.Perm ((groupQuads c9d.quads).1 ++ bucketsFlatten (groupQuads c9d.quads).2) c9d.quads :=
  ⟨(serializeTrig_partitions c9d).2.2.1 ("<g>", [⟨1, ⟨tA2, tB2, tC2, some tG⟩⟩]) (by decide)
      ⟨1, ⟨tA2, tB2, tC2, some tG⟩⟩ (by decide),
   (serializeTrig_partitions c9d).2.1⟩
